import Mathlib

/-!
Shallow embedding of the crossword front-end core: the play component
(grid construction, focus navigation, result merging, restart) and the
grid-authoring component (placement validation, placed-word bookkeeping).
Machine numbers are modelled as Int/Nat; fallible lookups return Option.
-/

/-- Word orientation, shared by both components. -/
inductive Direction | horizontal | vertical deriving DecidableEq

/-- Keys handled by the play keyboard handler. -/
inductive Key | backspace | arrowRight | arrowDown | other deriving DecidableEq

namespace Play

/-- A word of the loaded game, as delivered by the server. -/
structure WordData where
  id : String
  number : Nat
  direction : Direction
  row_index : Nat
  col_index : Nat
  length : Nat
  clue : String
  deriving DecidableEq

/-- The loaded game. -/
structure GameData where
  id : String
  name : String
  rows : Nat
  cols : Nat
  words : List WordData
  deriving DecidableEq

/-- One cell of the play grid. -/
structure CellData where
  isActive : Bool
  char : String
  number : Option Nat
  wordIds : List String
  isCorrect : Option Bool
  deriving DecidableEq

/-- One entry of the check endpoint response. -/
structure CheckResult where
  word_id : String
  is_correct : Bool
  deriving DecidableEq

abbrev Grid := List (List CellData)

def emptyCell : CellData :=
  { isActive := false, char := "", number := none, wordIds := [], isCorrect := none }

/-- Row covered by offset i of a word (the r computation repeated in the source). -/
def wordCellRow (w : WordData) (i : Nat) : Nat :=
  if w.direction = Direction.vertical then w.row_index + i else w.row_index

/-- Column covered by offset i of a word (the c computation repeated in the source). -/
def wordCellCol (w : WordData) (i : Nat) : Nat :=
  if w.direction = Direction.horizontal then w.col_index + i else w.col_index

/-- Whether offset i of word w covers cell (r, c). -/
def coversCell (w : WordData) (r c : Nat) : Bool :=
  (List.range w.length).any (fun i => decide (wordCellRow w i = r ∧ wordCellCol w i = c))

/-- grid[r][c] as an Option. -/
def cellAt (g : Grid) (r c : Nat) : Option CellData :=
  (g.get? r).bind (fun row => row.get? c)

/-- The copy-on-write update newGrid[r][c] = f(newGrid[r][c]) used throughout the source. -/
def modifyCell (g : Grid) (r c : Nat) (f : CellData → CellData) : Grid :=
  match g.get? r with
  | none => g
  | some row =>
    match row.get? c with
    | none => g
    | some cell => g.set r (row.set c (f cell))

/-- One iteration of the inner loop of initializeGrid: mark the cell covered by
offset i of word w active (guarded by r < rows and c < cols as in the source). -/
def placeWordStep (rows cols : Nat) (w : WordData) (g : Grid) (i : Nat) : Grid :=
  let r := wordCellRow w i
  let c := wordCellCol w i
  if r < rows ∧ c < cols then
    modifyCell g r c (fun cell =>
      { cell with isActive := true,
                  wordIds := cell.wordIds ++ [w.id],
                  number := if i = 0 then some w.number else cell.number })
  else g

/-- initializeGrid: build the rows × cols grid of inactive cells, then walk every
word span, activating covered in-bounds cells. -/
def initializeGrid (data : GameData) : Grid :=
  data.words.foldl
    (fun g w => (List.range w.length).foldl (placeWordStep data.rows data.cols w) g)
    (List.replicate data.rows (List.replicate data.cols emptyCell))

/-- isCorrect for a word in handleSubmit: results.find(...)?.is_correct || false. -/
def isCorrectFor (results : List CheckResult) (w : WordData) : Bool :=
  match results.find? (fun res => res.word_id == w.id) with
  | some res => res.is_correct
  | none => false

/-- The per-cell update of the handleSubmit merge: an incorrect word forces false,
a correct word sets true only when the flag is not already false. -/
def mergeCell (isCorrect : Bool) (cell : CellData) : CellData :=
  if !isCorrect then { cell with isCorrect := some false }
  else if cell.isCorrect ≠ some false then { cell with isCorrect := some true }
  else cell

/-- The inner loop of the handleSubmit merge for one word. -/
def mergeWord (results : List CheckResult) (g : Grid) (w : WordData) : Grid :=
  (List.range w.length).foldl
    (fun g i => modifyCell g (wordCellRow w i) (wordCellCol w i)
      (mergeCell (isCorrectFor results w))) g

/-- The result-merge pass of handleSubmit over all words of the game. -/
def mergeResults (words : List WordData) (results : List CheckResult) (g : Grid) : Grid :=
  words.foldl (mergeWord results) g

/-- The play component state relevant to the handlers. -/
structure PlayState where
  game : Option GameData
  grid : Grid
  timer : Nat
  isPaused : Bool
  isFinished : Bool
  selectedCell : Option (Int × Int)
  direction : Direction
  deriving DecidableEq

def gameRows (s : PlayState) : Int := (((s.game.map (fun gm => gm.rows)).getD 0 : Nat) : Int)

def gameCols (s : PlayState) : Int := (((s.game.map (fun gm => gm.cols)).getD 0 : Nat) : Int)

/-- grid[r][c]?.isActive with a false default, as read by the moveFocus scan. -/
def cellActive (g : Grid) (r c : Nat) : Bool :=
  ((cellAt g r c).map (fun cell => cell.isActive)).getD false

/-- The moveFocus scan loop: advance by step along dir, stop on leaving bounds,
succeed on the first active cell, and give up after the attempt budget
(at most 50 iterations, matching attempts < 50 in the source). -/
def moveFocusAux (g : Grid) (rows cols step : Int) (dir : Direction) :
    Int → Int → Nat → Option (Int × Int)
  | _, _, 0 => none
  | r, c, fuel + 1 =>
    let currR := if dir = Direction.horizontal then r else r + step
    let currC := if dir = Direction.horizontal then c + step else c
    if currR < 0 ∨ currR ≥ rows ∨ currC < 0 ∨ currC ≥ cols then none
    else if cellActive g currR.toNat currC.toNat then some (currR, currC)
    else moveFocusAux g rows cols step dir currR currC fuel

/-- moveFocus with the source's fixed 50-attempt budget, dir defaulting to the
state's current direction when no override is given. -/
def moveFocus (s : PlayState) (r c step : Int) (overrideDir : Option Direction) :
    Option (Int × Int) :=
  moveFocusAux s.grid (gameRows s) (gameCols s) step (overrideDir.getD s.direction) r c 50

/-- Position reached after k advance steps of the moveFocus scan. -/
def scanPos (r c step : Int) (dir : Direction) (k : Nat) : Int × Int :=
  if dir = Direction.horizontal then (r, c + step * (k : Int)) else (r + step * (k : Int), c)

/-- moveFocus calls setSelectedCell only when a target was found; otherwise the
selection stays as it was. -/
def applyFocusResult (s : PlayState) (t : Option (Int × Int)) : PlayState :=
  match t with
  | some p => { s with selectedCell := some p }
  | none => s

/-- val.slice(-1).toUpperCase(). -/
def lastCharUpper (val : String) : String :=
  match val.data.getLast? with
  | some ch => String.mk [ch.toUpper]
  | none => ""

/-- handleInputChange: gated on the cell being active and the game being neither
paused nor finished; writes the uppercased last input character and auto-advances. -/
def handleInputChange (s : PlayState) (r c : Nat) (val : String) : PlayState :=
  match cellAt s.grid r c with
  | none => s
  | some cell =>
    if !cell.isActive || s.isPaused || s.isFinished then s
    else
      let char := lastCharUpper val
      let s1 : PlayState :=
        { s with grid := modifyCell s.grid r c (fun cl => { cl with char := char }) }
      if char ≠ "" then applyFocusResult s1 (moveFocus s (r : Int) (c : Int) 1 none) else s1

/-- handleKeyDown: gated on paused/finished; Backspace on an empty cell moves focus
backward, arrows set the direction and move one step in it. -/
def handleKeyDown (s : PlayState) (key : Key) (r c : Nat) : PlayState :=
  if s.isPaused || s.isFinished then s
  else
    match key with
    | Key.backspace =>
      match cellAt s.grid r c with
      | none => s
      | some cell =>
        if cell.char = "" then applyFocusResult s (moveFocus s (r : Int) (c : Int) (-1) none)
        else s
    | Key.arrowRight =>
      applyFocusResult { s with direction := Direction.horizontal }
        (moveFocus s (r : Int) (c : Int) 1 (some Direction.horizontal))
    | Key.arrowDown =>
      applyFocusResult { s with direction := Direction.vertical }
        (moveFocus s (r : Int) (c : Int) 1 (some Direction.vertical))
    | Key.other => s

/-- handleCellClick (play): gated on active/paused/finished; clicking the selected
cell toggles the direction, and the clicked cell becomes selected. -/
def handleCellClick (s : PlayState) (r c : Nat) : PlayState :=
  match cellAt s.grid r c with
  | none => s
  | some cell =>
    if !cell.isActive || s.isPaused || s.isFinished then s
    else
      let dir := if s.selectedCell = some ((r : Int), (c : Int)) then
                   (if s.direction = Direction.horizontal then Direction.vertical
                    else Direction.horizontal)
                 else s.direction
      { s with direction := dir, selectedCell := some ((r : Int), (c : Int)) }

/-- handleRestart: zero the timer, clear pause/finish, and blank every cell's
character and correctness flag, keeping everything else. -/
def handleRestart (s : PlayState) : PlayState :=
  { s with timer := 0, isPaused := false, isFinished := false,
           grid := s.grid.map (fun row =>
             row.map (fun cell => { cell with char := "", isCorrect := none })) }

end Play

namespace Builder

/-- The fixed 20 × 20 authoring canvas. -/
def GRID_SIZE : Int := 20

/-- A word placed on the authoring canvas. -/
structure GridWord where
  word : List Char
  clue : String
  row : Int
  col : Int
  direction : Direction
  number : Nat
  deriving DecidableEq

/-- One entry of the authoring word list (word text with its clue). -/
structure InputWord where
  word : List Char
  clue : String
  deriving DecidableEq

/-- The per-direction span test of the getCharAt loop: does the span of pw cover
cell (r, c)? -/
def covers (pw : GridWord) (r c : Int) : Bool :=
  if pw.direction = Direction.horizontal then
    decide (r = pw.row ∧ pw.col ≤ c ∧ c < pw.col + (pw.word.length : Int))
  else
    decide (c = pw.col ∧ pw.row ≤ r ∧ r < pw.row + (pw.word.length : Int))

/-- The character a placed word contributes at a covered cell: pw.word at offset
c - pw.col (horizontal) or r - pw.row (vertical). -/
def charAtCell (pw : GridWord) (r c : Int) : Char :=
  if pw.direction = Direction.horizontal then pw.word.getD (c - pw.col).toNat ' '
  else pw.word.getD (r - pw.row).toNat ' '

/-- getCharAt: scan the placed words in order and return the character of the first
one whose span covers (r, c); null when none does. -/
def getCharAt : List GridWord → Int → Int → Option Char
  | [], _, _ => none
  | pw :: rest, r, c =>
    if covers pw r c then some (charAtCell pw r c) else getCharAt rest r c

/-- Row covered by offset i of a candidate placement (currentRow of the source). -/
def spanRow (r : Int) (dir : Direction) (i : Nat) : Int :=
  if dir = Direction.vertical then r + (i : Int) else r

/-- Column covered by offset i of a candidate placement (currentCol of the source). -/
def spanCol (c : Int) (dir : Direction) (i : Nat) : Int :=
  if dir = Direction.horizontal then c + (i : Int) else c

/-- canPlaceWord: reject when the span overruns the canvas in the travel direction,
and reject any offset whose covered cell already holds a different character. -/
def canPlaceWord (placed : List GridWord) (word : List Char) (r c : Int)
    (dir : Direction) : Bool :=
  if dir = Direction.horizontal ∧ c + (word.length : Int) > GRID_SIZE then false
  else if dir = Direction.vertical ∧ r + (word.length : Int) > GRID_SIZE then false
  else (List.range word.length).all (fun i =>
    match getCharAt placed (spanRow r dir i) (spanCol c dir i) with
    | some existingChar => existingChar == word.getD i ' '
    | none => true)

/-- The authoring component state relevant to the placement handlers. -/
structure BuilderState where
  placedWords : List GridWord
  availableWords : List (List Char)
  selectedWordStr : Option (List Char)
  direction : Direction
  deriving DecidableEq

/-- handleCellClick (builder): with a word selected and a legal placement, commit
the word at (r, c) with number placedWords.length + 1 and drop it from the
available pool; otherwise leave the state unchanged. -/
def handleCellClick (initialWords : List InputWord) (s : BuilderState) (r c : Int) :
    BuilderState :=
  match s.selectedWordStr with
  | none => s
  | some sel =>
    if !canPlaceWord s.placedWords sel r c s.direction then s
    else
      match initialWords.find? (fun w => w.word == sel) with
      | none => s
      | some fullWordData =>
        let newPlacedWord : GridWord :=
          { word := sel, clue := fullWordData.clue, row := r, col := c,
            direction := s.direction, number := s.placedWords.length + 1 }
        { s with placedWords := s.placedWords ++ [newPlacedWord],
                 availableWords := s.availableWords.filter (fun w => !(w == sel)),
                 selectedWordStr := none }

/-- newPlaced.map((pw, i) => ... number: i + 1 ...): renumber a list sequentially
starting from n + 1. -/
def renumberFrom (n : Nat) : List GridWord → List GridWord
  | [] => []
  | pw :: rest => { pw with number := n + 1 } :: renumberFrom (n + 1) rest

/-- handleRemovePlacedWord: drop the word at the given index, renumber the rest
1..N in order, and return the removed text to the available pool. -/
def handleRemovePlacedWord (s : BuilderState) (index : Nat) : BuilderState :=
  match s.placedWords.get? index with
  | none => s
  | some removed =>
    let newPlaced := s.placedWords.eraseIdx index
    { s with placedWords := renumberFrom 0 newPlaced,
             availableWords := s.availableWords ++ [removed.word] }

/-- A placed-word list as produced by successive committed placements: every word
was accepted by canPlaceWord against the words placed before it. -/
def validChain (l : List GridWord) : Prop :=
  ∀ j pw, l.get? j = some pw →
    canPlaceWord (l.take j) pw.word pw.row pw.col pw.direction = true

/-- The numbering invariant: numbers run 1..N in list order. -/
def denseNumbering (l : List GridWord) : Prop :=
  ∀ i pw, l.get? i = some pw → pw.number = i + 1

/-- Erase the (derived) display number, for comparing placements up to numbering. -/
def forgetNumber (pw : GridWord) : GridWord := { pw with number := 0 }

end Builder

/-! Concrete fixtures used to exercise the definitions at specific inputs. -/

def sampleCell : Play.CellData :=
  { isActive := true, char := "A", number := some 1, wordIds := ["w1"], isCorrect := some true }

def sampleState : Play.PlayState :=
  { game := none, grid := [[sampleCell]], timer := 7, isPaused := false, isFinished := false,
    selectedCell := none, direction := Direction.horizontal }

def pausedState : Play.PlayState := { sampleState with isPaused := true }

def helloWord : Play.WordData :=
  { id := "h", number := 1, direction := Direction.horizontal, row_index := 0, col_index := 0,
    length := 5, clue := "greeting" }

def hatWord : Play.WordData :=
  { id := "v", number := 2, direction := Direction.vertical, row_index := 0, col_index := 0,
    length := 3, clue := "headwear" }

def crossGame : Play.GameData :=
  { id := "g1", name := "cross", rows := 5, cols := 5, words := [helloWord, hatWord] }

def crossGrid : Play.Grid := Play.initializeGrid crossGame

def truncGame : Play.GameData :=
  { id := "g2", name := "trunc", rows := 2, cols := 2,
    words := [{ id := "t", number := 1, direction := Direction.horizontal, row_index := 0,
                col_index := 0, length := 5, clue := "long" }] }

def staleWord : Play.WordData :=
  { id := "w1", number := 1, direction := Direction.horizontal, row_index := 0, col_index := 0,
    length := 1, clue := "stale" }

def staleGrid : Play.Grid :=
  [[{ isActive := true, char := "A", number := some 1, wordIds := ["w1"],
      isCorrect := some false }]]

def catWord : Builder.GridWord :=
  { word := ['C', 'A', 'T'], clue := "feline", row := 0, col := 0,
    direction := Direction.horizontal, number := 1 }

def lowerWord : Builder.GridWord :=
  { word := ['a'], clue := "letter", row := 0, col := 0,
    direction := Direction.horizontal, number := 1 }

def cowWord : Builder.GridWord :=
  { word := ['C', 'O', 'W'], clue := "animal", row := 0, col := 0,
    direction := Direction.vertical, number := 2 }

def builderTwo : Builder.BuilderState :=
  { placedWords := [catWord, cowWord], availableWords := [], selectedWordStr := none,
    direction := Direction.horizontal }

def edgeGrid : Play.Grid :=
  [[{ isActive := true, char := "", number := none, wordIds := [], isCorrect := none }]]

/-! General helper lemmas about the grid accessors. -/

theorem cellAt_map_map (g : Play.Grid) (f : Play.CellData → Play.CellData) (r c : Nat) :
    Play.cellAt (g.map (fun row => row.map f)) r c = (Play.cellAt g r c).map f := by
  unfold Play.cellAt
  rw [List.get?_map]
  cases g.get? r with
  | none => rfl
  | some row => simp [List.get?_map]

theorem modifyCell_none (g : Play.Grid) (r c : Nat) (f : Play.CellData → Play.CellData)
    (hg : g.get? r = none) : Play.modifyCell g r c f = g := by
  unfold Play.modifyCell
  rw [hg]

theorem modifyCell_rownone (g : Play.Grid) (r c : Nat) (f : Play.CellData → Play.CellData)
    (row : List Play.CellData) (hg : g.get? r = some row) (hrow : row.get? c = none) :
    Play.modifyCell g r c f = g := by
  unfold Play.modifyCell
  rw [hg]
  show (match row.get? c with
        | none => g
        | some cell => g.set r (row.set c (f cell))) = g
  rw [hrow]

theorem modifyCell_set (g : Play.Grid) (r c : Nat) (f : Play.CellData → Play.CellData)
    (row : List Play.CellData) (cell : Play.CellData)
    (hg : g.get? r = some row) (hrow : row.get? c = some cell) :
    Play.modifyCell g r c f = g.set r (row.set c (f cell)) := by
  unfold Play.modifyCell
  rw [hg]
  show (match row.get? c with
        | none => g
        | some cell => g.set r (row.set c (f cell))) = _
  rw [hrow]

theorem cellAt_modifyCell_self (g : Play.Grid) (r c : Nat) (f : Play.CellData → Play.CellData) :
    Play.cellAt (Play.modifyCell g r c f) r c = (Play.cellAt g r c).map f := by
  cases hg : g.get? r with
  | none =>
    rw [modifyCell_none g r c f hg]
    unfold Play.cellAt
    rw [hg]
    rfl
  | some row =>
    cases hrow : row.get? c with
    | none =>
      rw [modifyCell_rownone g r c f row hg hrow]
      unfold Play.cellAt
      rw [hg]
      simp only [Option.some_bind]
      rw [hrow]
      rfl
    | some cell =>
      obtain ⟨hr, -⟩ := List.get?_eq_some.mp hg
      obtain ⟨hc, -⟩ := List.get?_eq_some.mp hrow
      rw [modifyCell_set g r c f row cell hg hrow]
      unfold Play.cellAt
      rw [List.get?_set_eq_of_lt _ hr, hg]
      simp only [Option.some_bind]
      rw [List.get?_set_eq_of_lt _ hc, hrow]
      rfl

theorem cellAt_modifyCell_ne (g : Play.Grid) (r c : Nat) (f : Play.CellData → Play.CellData)
    (r' c' : Nat) (h : ¬(r' = r ∧ c' = c)) :
    Play.cellAt (Play.modifyCell g r c f) r' c' = Play.cellAt g r' c' := by
  cases hg : g.get? r with
  | none => rw [modifyCell_none g r c f hg]
  | some row =>
    cases hrow : row.get? c with
    | none => rw [modifyCell_rownone g r c f row hg hrow]
    | some cell =>
      obtain ⟨hr, -⟩ := List.get?_eq_some.mp hg
      rw [modifyCell_set g r c f row cell hg hrow]
      unfold Play.cellAt
      by_cases hr' : r' = r
      · subst hr'
        have hc' : c' ≠ c := fun hcc => h ⟨rfl, hcc⟩
        rw [List.get?_set_eq_of_lt _ hr, hg]
        simp only [Option.some_bind]
        exact List.get?_set_ne _ _ (fun hcc => hc' hcc.symm)
      · rw [List.get?_set_ne _ _ (fun hrr => hr' hrr.symm)]

/-- C7: handleRestart resets the elapsed-time counter to zero and sets every
cell's entered character to empty and its correctness flag to unset, while
leaving the loaded word list, the grid dimensions, and every cell's isActive
mask, clue number and covering word-id set unchanged. -/
theorem handleRestart_spec (s : Play.PlayState) :
    (Play.handleRestart s).timer = 0
  ∧ (Play.handleRestart s).game = s.game
  ∧ (Play.handleRestart s).grid.length = s.grid.length
  ∧ (∀ r c, (Play.cellAt (Play.handleRestart s).grid r c).map
        (fun cl => (cl.char, cl.isCorrect))
      = (Play.cellAt s.grid r c).map (fun _ => ("", (none : Option Bool))))
  ∧ (∀ r c, (Play.cellAt (Play.handleRestart s).grid r c).map
        (fun cl => (cl.isActive, cl.number, cl.wordIds))
      = (Play.cellAt s.grid r c).map (fun cl => (cl.isActive, cl.number, cl.wordIds))) := by
  refine ⟨rfl, rfl, by simp [Play.handleRestart], ?_, ?_⟩
  · intro r c
    show (Play.cellAt (s.grid.map (fun row =>
        row.map (fun cell => { cell with char := "", isCorrect := none }))) r c).map _ = _
    rw [cellAt_map_map]
    cases Play.cellAt s.grid r c <;> rfl
  · intro r c
    show (Play.cellAt (s.grid.map (fun row =>
        row.map (fun cell => { cell with char := "", isCorrect := none }))) r c).map _ = _
    rw [cellAt_map_map]
    cases Play.cellAt s.grid r c <;> rfl

/-- C8: whenever the paused flag or the finished flag is set, the play-time
input handlers handleInputChange, handleKeyDown and handleCellClick leave the
whole state unchanged, for every cell, input value and key. -/
theorem paused_gate_spec (s : Play.PlayState)
    (h : s.isPaused = true ∨ s.isFinished = true) :
    (∀ r c val, Play.handleInputChange s r c val = s)
  ∧ (∀ key r c, Play.handleKeyDown s key r c = s)
  ∧ (∀ r c, Play.handleCellClick s r c = s) := by
  have hb : ∀ x : Bool, (x || s.isPaused || s.isFinished) = true := by
    intro x
    rcases h with h | h <;> simp [h]
  refine ⟨?_, ?_, ?_⟩
  · intro r c val
    unfold Play.handleInputChange
    cases Play.cellAt s.grid r c with
    | none => rfl
    | some cell => simp [hb]
  · intro key r c
    unfold Play.handleKeyDown
    have hb2 : (s.isPaused || s.isFinished) = true := by
      rcases h with h | h <;> simp [h]
    simp [hb2]
  · intro r c
    unfold Play.handleCellClick
    cases Play.cellAt s.grid r c with
    | none => rfl
    | some cell => simp [hb]

/-- C8 witness: at a concrete paused state, all three handlers return the state
unchanged. -/
theorem paused_gate_spec_witness :
    Play.handleInputChange pausedState 0 0 "x" = pausedState
  ∧ Play.handleKeyDown pausedState Key.backspace 0 0 = pausedState
  ∧ Play.handleCellClick pausedState 0 0 = pausedState :=
  ⟨(paused_gate_spec pausedState (Or.inl rfl)).1 0 0 "x",
   (paused_gate_spec pausedState (Or.inl rfl)).2.1 Key.backspace 0 0,
   (paused_gate_spec pausedState (Or.inl rfl)).2.2 0 0⟩

/-- C1 counterexample: two overlapping letters that agree only up to case are
rejected by canPlaceWord (the comparison is strict), contradicting the claim
that such an overlap is accepted. -/
theorem canPlaceWord_case_insensitive_cex :
    Builder.canPlaceWord [lowerWord] ['A'] 0 0 Direction.vertical = false
  ∧ Char.toLower 'a' = Char.toLower 'A' :=
  ⟨by decide, by decide⟩

/-- C1 (amended): for a placement that passes the bounds tests, canPlaceWord
returns false exactly when some offset of the span is covered by a placed word
whose character differs, under case-sensitive character equality, from the
candidate's character at that offset. -/
theorem canPlaceWord_conflict_iff (placed : List Builder.GridWord) (word : List Char)
    (r c : Int) (dir : Direction)
    (hb1 : ¬(dir = Direction.horizontal ∧ c + (word.length : Int) > Builder.GRID_SIZE))
    (hb2 : ¬(dir = Direction.vertical ∧ r + (word.length : Int) > Builder.GRID_SIZE)) :
    Builder.canPlaceWord placed word r c dir = false ↔
      ∃ i, i < word.length ∧ ∃ ch,
        Builder.getCharAt placed (Builder.spanRow r dir i) (Builder.spanCol c dir i) = some ch
          ∧ ch ≠ word.getD i ' ' := by
  unfold Builder.canPlaceWord
  rw [if_neg hb1, if_neg hb2]
  simp only [Bool.eq_false_iff, Ne, List.all_eq_true]
  push_neg
  constructor
  · rintro ⟨i, hmem, hpred⟩
    have hi : i < word.length := List.mem_range.mp hmem
    refine ⟨i, hi, ?_⟩
    cases hg : Builder.getCharAt placed (Builder.spanRow r dir i) (Builder.spanCol c dir i) with
    | none => simp [hg] at hpred
    | some ch =>
      refine ⟨ch, rfl, ?_⟩
      simp [hg] at hpred
      simpa using hpred
  · rintro ⟨i, hi, ch, hg, hne⟩
    refine ⟨i, List.mem_range.mpr hi, ?_⟩
    simp [hg]
    simpa using hne

/-- C1 witness: placing CAT horizontally at the origin makes a vertical D at the
shared cell fail (covered character C differs from D). -/
theorem canPlaceWord_conflict_iff_witness :
    Builder.canPlaceWord [catWord] ['D'] 0 0 Direction.vertical = false :=
  (canPlaceWord_conflict_iff [catWord] ['D'] 0 0 Direction.vertical (by decide)
      (by decide)).mpr ⟨0, by decide, 'C', by decide, by decide⟩

/-- C2 counterexample: canPlaceWord accepts a negative origin and an out-of-range
fixed coordinate, contradicting the claim that it fails whenever r < 0 or c < 0
or the span's fixed coordinate lies outside the grid. -/
theorem canPlaceWord_negative_origin_cex :
    Builder.canPlaceWord [] ['A'] (-1) (-1) Direction.horizontal = true
  ∧ Builder.canPlaceWord [] ['A'] 25 0 Direction.horizontal = true :=
  ⟨by decide, by decide⟩

/-- C2 (amended): canPlaceWord rejects a placement whose span overruns the grid
size in the travel direction (horizontal: c + length > 20, vertical:
r + length > 20); it performs no other bounds check, so on an empty placed set
it accepts exactly the placements passing those two tests, including negative
origins and out-of-range fixed coordinates. -/
theorem canPlaceWord_bounds_spec (placed : List Builder.GridWord) (word : List Char)
    (r c : Int) (dir : Direction) :
    ((dir = Direction.horizontal ∧ c + (word.length : Int) > Builder.GRID_SIZE) →
       Builder.canPlaceWord placed word r c dir = false)
  ∧ ((dir = Direction.vertical ∧ r + (word.length : Int) > Builder.GRID_SIZE) →
       Builder.canPlaceWord placed word r c dir = false)
  ∧ (Builder.canPlaceWord [] word r c dir = true ↔
       ¬(dir = Direction.horizontal ∧ c + (word.length : Int) > Builder.GRID_SIZE)
       ∧ ¬(dir = Direction.vertical ∧ r + (word.length : Int) > Builder.GRID_SIZE)) := by
  refine ⟨?_, ?_, ?_⟩
  · intro hb
    unfold Builder.canPlaceWord
    rw [if_pos hb]
  · intro hb
    unfold Builder.canPlaceWord
    by_cases hb1 : dir = Direction.horizontal ∧ c + (word.length : Int) > Builder.GRID_SIZE
    · rw [if_pos hb1]
    · rw [if_neg hb1, if_pos hb]
  · unfold Builder.canPlaceWord
    by_cases hb1 : dir = Direction.horizontal ∧ c + (word.length : Int) > Builder.GRID_SIZE
    · simp [hb1]
    · by_cases hb2 : dir = Direction.vertical ∧ r + (word.length : Int) > Builder.GRID_SIZE
      · simp [hb1, hb2]
      · simp [hb1, hb2, Builder.getCharAt]

/-- C2 witness: a two-letter horizontal word at column 19 overruns the 20-wide
canvas and is rejected. -/
theorem canPlaceWord_bounds_spec_witness :
    Builder.canPlaceWord [] ['A', 'B'] 0 19 Direction.horizontal = false :=
  (canPlaceWord_bounds_spec [] ['A', 'B'] 0 19 Direction.horizontal).1 (by decide)

theorem scanPos_step_eq (r c step : Int) (dir : Direction) (k : Nat) :
    Play.scanPos (if dir = Direction.horizontal then r else r + step)
        (if dir = Direction.horizontal then c + step else c) step dir k
      = Play.scanPos r c step dir (k + 1) := by
  cases dir <;> simp [Play.scanPos] <;> ring

theorem scanPos_one_eq (r c step : Int) (dir : Direction) :
    Play.scanPos r c step dir 1
      = (if dir = Direction.horizontal then r else r + step,
         if dir = Direction.horizontal then c + step else c) := by
  cases dir <;> simp [Play.scanPos]

theorem moveFocusAux_some_spec (g : Play.Grid) (rows cols step : Int) (dir : Direction) :
    ∀ (fuel : Nat) (r c : Int) (p : Int × Int),
      Play.moveFocusAux g rows cols step dir r c fuel = some p →
        ∃ k, 1 ≤ k ∧ k ≤ fuel ∧ p = Play.scanPos r c step dir k
          ∧ ¬(p.1 < 0 ∨ p.1 ≥ rows ∨ p.2 < 0 ∨ p.2 ≥ cols)
          ∧ Play.cellActive g p.1.toNat p.2.toNat = true := by
  intro fuel
  induction fuel with
  | zero =>
    intro r c p h
    simp [Play.moveFocusAux] at h
  | succ n ih =>
    intro r c p h
    rw [Play.moveFocusAux] at h
    by_cases hout : (if dir = Direction.horizontal then r else r + step) < 0
        ∨ (if dir = Direction.horizontal then r else r + step) ≥ rows
        ∨ (if dir = Direction.horizontal then c + step else c) < 0
        ∨ (if dir = Direction.horizontal then c + step else c) ≥ cols
    · rw [if_pos hout] at h
      cases h
    · rw [if_neg hout] at h
      by_cases hact : Play.cellActive g
          (if dir = Direction.horizontal then r else r + step).toNat
          (if dir = Direction.horizontal then c + step else c).toNat = true
      · rw [if_pos hact] at h
        refine ⟨1, le_refl 1, Nat.one_le_iff_ne_zero.mpr (by simp), ?_, ?_, ?_⟩
        · rw [scanPos_one_eq]
          exact (Option.some_inj.mp h).symm
        · obtain rfl := Option.some_inj.mp h
          exact hout
        · obtain rfl := Option.some_inj.mp h
          exact hact
      · rw [if_neg hact] at h
        obtain ⟨k, hk1, hkn, hpk, hbound, hactk⟩ := ih _ _ p h
        refine ⟨k + 1, Nat.le_add_left 1 k, Nat.succ_le_succ hkn, ?_, hbound, hactk⟩
        rw [hpk, scanPos_step_eq]

theorem moveFocusAux_none_of_inactive (g : Play.Grid) (rows cols step : Int)
    (dir : Direction) :
    ∀ (fuel : Nat) (r c : Int),
      (∀ k, 1 ≤ k → k ≤ fuel →
        Play.cellActive g (Play.scanPos r c step dir k).1.toNat
          (Play.scanPos r c step dir k).2.toNat = false) →
      Play.moveFocusAux g rows cols step dir r c fuel = none := by
  intro fuel
  induction fuel with
  | zero =>
    intro r c _
    simp [Play.moveFocusAux]
  | succ n ih =>
    intro r c hk
    rw [Play.moveFocusAux]
    by_cases hout : (if dir = Direction.horizontal then r else r + step) < 0
        ∨ (if dir = Direction.horizontal then r else r + step) ≥ rows
        ∨ (if dir = Direction.horizontal then c + step else c) < 0
        ∨ (if dir = Direction.horizontal then c + step else c) ≥ cols
    · rw [if_pos hout]
    · rw [if_neg hout]
      have h1 := hk 1 (le_refl 1) (Nat.one_le_iff_ne_zero.mpr (by simp))
      rw [scanPos_one_eq] at h1
      rw [h1]
      simp only [Bool.false_eq_true, if_false]
      apply ih
      intro k hk1 hkn
      have := hk (k + 1) (Nat.le_add_left 1 k) (Nat.succ_le_succ hkn)
      rw [← scanPos_step_eq] at this
      exact this

/-- C4: the moveFocus scan makes at most 50 advance attempts, so it terminates:
any found target is the position reached after some k of at most 50 steps and is
an in-bounds active cell; if no active cell occurs among the 50 scanned
positions, or the very first advanced position already leaves the grid bounds
(stepping outward from a cell at the grid edge), the scan yields no target, and
a scan with no target leaves the selected cell unchanged. -/
theorem moveFocus_bounded_spec (g : Play.Grid) (rows cols step : Int) (dir : Direction)
    (r c : Int) :
    (∀ p, Play.moveFocusAux g rows cols step dir r c 50 = some p →
       ∃ k, 1 ≤ k ∧ k ≤ 50 ∧ p = Play.scanPos r c step dir k
         ∧ ¬(p.1 < 0 ∨ p.1 ≥ rows ∨ p.2 < 0 ∨ p.2 ≥ cols)
         ∧ Play.cellActive g p.1.toNat p.2.toNat = true)
  ∧ ((∀ k, 1 ≤ k → k ≤ 50 →
        Play.cellActive g (Play.scanPos r c step dir k).1.toNat
          (Play.scanPos r c step dir k).2.toNat = false) →
      Play.moveFocusAux g rows cols step dir r c 50 = none)
  ∧ (((Play.scanPos r c step dir 1).1 < 0 ∨ (Play.scanPos r c step dir 1).1 ≥ rows
      ∨ (Play.scanPos r c step dir 1).2 < 0 ∨ (Play.scanPos r c step dir 1).2 ≥ cols) →
      Play.moveFocusAux g rows cols step dir r c 50 = none)
  ∧ (∀ s : Play.PlayState, Play.moveFocusAux g rows cols step dir r c 50 = none →
      (Play.applyFocusResult s (Play.moveFocusAux g rows cols step dir r c 50)).selectedCell
        = s.selectedCell) := by
  refine ⟨fun p h => moveFocusAux_some_spec g rows cols step dir 50 r c p h, ?_, ?_, ?_⟩
  · exact moveFocusAux_none_of_inactive g rows cols step dir 50 r c
  · intro hout
    rw [scanPos_one_eq] at hout
    rw [show (50 : Nat) = 49 + 1 from rfl, Play.moveFocusAux]
    exact if_pos hout
  · intro s hnone
    rw [hnone]
    rfl

/-- C4 witness: on a 1 × 1 grid whose single cell is active, stepping outward
(right) from that cell leaves the grid immediately, so the scan finds no target. -/
theorem moveFocus_bounded_spec_witness :
    Play.moveFocusAux edgeGrid 1 1 1 Direction.horizontal 0 0 50 = none :=
  (moveFocus_bounded_spec edgeGrid 1 1 1 Direction.horizontal 0 0).2.2.1 (by decide)

theorem denseNumbering_append {l : List Builder.GridWord} {pw : Builder.GridWord}
    (hl : Builder.denseNumbering l) (hn : pw.number = l.length + 1) :
    Builder.denseNumbering (l ++ [pw]) := by
  intro i q h
  rcases Nat.lt_trichotomy i l.length with hi | hi | hi
  · rw [List.get?_append hi] at h
    exact hl i q h
  · subst hi
    rw [List.get?_concat_length] at h
    cases h
    exact hn
  · have hlen : (l ++ [pw]).length ≤ i := by
      simp only [List.length_append, List.length_singleton]
      omega
    rw [List.get?_eq_none.mpr hlen] at h
    cases h

theorem renumberFrom_get? : ∀ (l : List Builder.GridWord) (n i : Nat),
    (Builder.renumberFrom n l).get? i
      = (l.get? i).map (fun pw => { pw with number := n + i + 1 }) := by
  intro l
  induction l with
  | nil => intro n i; simp [Builder.renumberFrom]
  | cons pw rest ih =>
    intro n i
    cases i with
    | zero => simp [Builder.renumberFrom]
    | succ m =>
      simp only [Builder.renumberFrom, List.get?_cons_succ, ih (n + 1) m]
      simp only [show ∀ q : Builder.GridWord,
        ({ q with number := n + 1 + m + 1 } : Builder.GridWord)
          = { q with number := n + (m + 1) + 1 } from fun q => by
            have : n + 1 + m + 1 = n + (m + 1) + 1 := by omega
            rw [this]]

theorem denseNumbering_renumberFrom (l : List Builder.GridWord) :
    Builder.denseNumbering (Builder.renumberFrom 0 l) := by
  intro i q h
  rw [renumberFrom_get? l 0 i] at h
  cases hg : l.get? i with
  | none => rw [hg] at h; cases h
  | some pw =>
    rw [hg] at h
    cases h
    simp

theorem map_forgetNumber_renumberFrom : ∀ (l : List Builder.GridWord) (n : Nat),
    (Builder.renumberFrom n l).map Builder.forgetNumber = l.map Builder.forgetNumber := by
  intro l
  induction l with
  | nil => intro n; rfl
  | cons pw rest ih => intro n; simp [Builder.renumberFrom, Builder.forgetNumber, ih]

theorem handleRemove_eq (s : Builder.BuilderState) (index : Nat)
    (removed : Builder.GridWord) (h : s.placedWords.get? index = some removed) :
    Builder.handleRemovePlacedWord s index =
      { s with placedWords := Builder.renumberFrom 0 (s.placedWords.eraseIdx index),
               availableWords := s.availableWords ++ [removed.word] } := by
  unfold Builder.handleRemovePlacedWord
  rw [h]

/-- C6: the placed-word numbering invariant: committing a placement through the
builder's handleCellClick either leaves the list unchanged or appends a word
numbered N + 1 (so a dense 1..N numbering stays dense), and
handleRemovePlacedWord renumbers the remaining words densely 1..N-1 while
preserving their relative order (equality after erasing the number field). -/
theorem dense_numbering_spec (initialWords : List Builder.InputWord)
    (s : Builder.BuilderState) (r c : Int) (index : Nat)
    (hdense : Builder.denseNumbering s.placedWords)
    (hindex : index < s.placedWords.length) :
    Builder.denseNumbering (Builder.handleCellClick initialWords s r c).placedWords
  ∧ ((Builder.handleCellClick initialWords s r c).placedWords = s.placedWords
     ∨ ∃ pw, (Builder.handleCellClick initialWords s r c).placedWords
         = s.placedWords ++ [pw] ∧ pw.number = s.placedWords.length + 1)
  ∧ Builder.denseNumbering (Builder.handleRemovePlacedWord s index).placedWords
  ∧ (Builder.handleRemovePlacedWord s index).placedWords.map Builder.forgetNumber
      = (s.placedWords.eraseIdx index).map Builder.forgetNumber := by
  have hget : s.placedWords.get? index = some (s.placedWords.get ⟨index, hindex⟩) :=
    List.get?_eq_get hindex
  have hclick : (Builder.handleCellClick initialWords s r c).placedWords = s.placedWords
      ∨ ∃ pw, (Builder.handleCellClick initialWords s r c).placedWords
          = s.placedWords ++ [pw] ∧ pw.number = s.placedWords.length + 1 := by
    unfold Builder.handleCellClick
    cases hsel : s.selectedWordStr with
    | none => exact Or.inl rfl
    | some sel =>
      by_cases hcan : Builder.canPlaceWord s.placedWords sel r c s.direction = true
      · cases hfind : initialWords.find? (fun w => w.word == sel) with
        | none => simp [hcan, hfind]
        | some fwd =>
          right
          refine ⟨{ word := sel, clue := fwd.clue, row := r, col := c,
                    direction := s.direction,
                    number := s.placedWords.length + 1 }, ?_, rfl⟩
          simp [hcan, hfind]
      · rw [Bool.not_eq_true] at hcan
        simp [hcan]
  refine ⟨?_, hclick, ?_, ?_⟩
  · rcases hclick with h | ⟨pw, h, hn⟩
    · rw [h]
      exact hdense
    · rw [h]
      exact denseNumbering_append hdense hn
  · rw [handleRemove_eq s index _ hget]
    exact denseNumbering_renumberFrom _
  · rw [handleRemove_eq s index _ hget]
    exact map_forgetNumber_renumberFrom _ 0

/-- C6 witness: removing the first of two placed words keeps the remaining word
with its position and text, renumbered from 1. -/
theorem dense_numbering_spec_witness :
    (Builder.handleRemovePlacedWord builderTwo 0).placedWords.map Builder.forgetNumber
      = (builderTwo.placedWords.eraseIdx 0).map Builder.forgetNumber :=
  (dense_numbering_spec [] builderTwo 0 0 0
      (fun i pw h => by
        rcases i with _ | _ | i
        · cases h; rfl
        · cases h; rfl
        · simp [builderTwo] at h)
      (by decide)).2.2.2

theorem getCharAt_cons (pw : Builder.GridWord) (rest : List Builder.GridWord) (r c : Int) :
    Builder.getCharAt (pw :: rest) r c =
      if Builder.covers pw r c then some (Builder.charAtCell pw r c)
      else Builder.getCharAt rest r c := rfl

theorem getCharAt_eq_none_iff (placed : List Builder.GridWord) (r c : Int) :
    Builder.getCharAt placed r c = none ↔ ∀ pw ∈ placed, Builder.covers pw r c = false := by
  induction placed with
  | nil => simp [Builder.getCharAt]
  | cons pw rest ih =>
    rw [getCharAt_cons]
    by_cases hcov : Builder.covers pw r c = true
    · simp [hcov]
    · rw [Bool.not_eq_true] at hcov
      simp [hcov, ih]

theorem getCharAt_some_mem (placed : List Builder.GridWord) (r c : Int) (ch : Char)
    (h : Builder.getCharAt placed r c = some ch) :
    ∃ pw ∈ placed, Builder.covers pw r c = true ∧ Builder.charAtCell pw r c = ch := by
  induction placed with
  | nil => cases h
  | cons pw rest ih =>
    rw [getCharAt_cons] at h
    by_cases hcov : Builder.covers pw r c = true
    · rw [if_pos hcov] at h
      exact ⟨pw, List.mem_cons_self pw rest, hcov, Option.some_inj.mp h⟩
    · rw [if_neg hcov] at h
      obtain ⟨q, hq, hqc, hqch⟩ := ih h
      exact ⟨q, List.mem_cons_of_mem pw hq, hqc, hqch⟩

theorem covers_span (pw : Builder.GridWord) (i : Nat) (hi : i < pw.word.length) :
    Builder.covers pw (Builder.spanRow pw.row pw.direction i)
      (Builder.spanCol pw.col pw.direction i) = true := by
  cases hdir : pw.direction <;>
    simp [Builder.covers, Builder.spanRow, Builder.spanCol, hdir] <;> omega

theorem charAtCell_span (pw : Builder.GridWord) (i : Nat) :
    Builder.charAtCell pw (Builder.spanRow pw.row pw.direction i)
      (Builder.spanCol pw.col pw.direction i) = pw.word.getD i ' ' := by
  cases hdir : pw.direction <;>
    simp [Builder.charAtCell, Builder.spanRow, Builder.spanCol, hdir]

theorem covers_exists_span (pw : Builder.GridWord) (r c : Int)
    (h : Builder.covers pw r c = true) :
    ∃ i, i < pw.word.length ∧ r = Builder.spanRow pw.row pw.direction i
      ∧ c = Builder.spanCol pw.col pw.direction i := by
  cases hdir : pw.direction
  · simp only [Builder.covers, hdir, if_pos, decide_eq_true_eq] at h
    obtain ⟨h1, h2, h3⟩ := h
    refine ⟨(c - pw.col).toNat, by omega, ?_, ?_⟩
    · simp [Builder.spanRow, hdir, h1]
    · simp only [Builder.spanCol, hdir, if_pos]
      omega
  · simp only [Builder.covers, hdir] at h
    rw [if_neg (by simp)] at h
    rw [decide_eq_true_eq] at h
    obtain ⟨h1, h2, h3⟩ := h
    refine ⟨(r - pw.row).toNat, by omega, ?_, ?_⟩
    · simp only [Builder.spanRow, hdir, if_pos]
      omega
    · simp [Builder.spanCol, hdir, h1]

theorem canPlaceWord_true_no_conflict (placed : List Builder.GridWord) (word : List Char)
    (r c : Int) (dir : Direction)
    (h : Builder.canPlaceWord placed word r c dir = true)
    (i : Nat) (hi : i < word.length) (ch : Char)
    (hch : Builder.getCharAt placed (Builder.spanRow r dir i)
      (Builder.spanCol c dir i) = some ch) :
    ch = word.getD i ' ' := by
  unfold Builder.canPlaceWord at h
  by_cases hb1 : dir = Direction.horizontal ∧ c + (word.length : Int) > Builder.GRID_SIZE
  · rw [if_pos hb1] at h
    cases h
  · rw [if_neg hb1] at h
    by_cases hb2 : dir = Direction.vertical ∧ r + (word.length : Int) > Builder.GRID_SIZE
    · rw [if_pos hb2] at h
      cases h
    · rw [if_neg hb2] at h
      rw [List.all_eq_true] at h
      have hp := h i (List.mem_range.mpr hi)
      simp [hch] at hp
      simpa using hp

theorem get?_of_mem_take {α : Type _} {l : List α} {n : Nat} {x : α}
    (h : x ∈ l.take n) : ∃ k, k < n ∧ l.get? k = some x := by
  obtain ⟨k, hk⟩ := List.get?_of_mem h
  have hkn : k < n := by
    by_contra hge
    push_neg at hge
    have hlen : (l.take n).length ≤ k := by
      rw [List.length_take]
      omega
    rw [List.get?_eq_none.mpr hlen] at hk
    cases hk
  rw [List.get?_take hkn] at hk
  exact ⟨k, hkn, hk⟩

theorem validChain_agree (l : List Builder.GridWord) (hvc : Builder.validChain l) :
    ∀ j i, i ≤ j → ∀ wi wj r c, l.get? i = some wi → l.get? j = some wj →
      Builder.covers wi r c = true → Builder.covers wj r c = true →
      Builder.charAtCell wi r c = Builder.charAtCell wj r c := by
  intro j
  induction j using Nat.strong_induction_on with
  | _ j ih =>
    intro i hij wi wj r c hgi hgj hci hcj
    rcases eq_or_lt_of_le hij with rfl | hlt
    · rw [hgi] at hgj
      cases hgj
      rfl
    · have hcan := hvc j wj hgj
      obtain ⟨o, ho, hr, hc⟩ := covers_exists_span wj r c hcj
      have hti : (l.take j).get? i = some wi := by
        rw [List.get?_take hlt]
        exact hgi
      have hmem : wi ∈ l.take j := List.get?_mem hti
      have hnn : Builder.getCharAt (l.take j) r c ≠ none := by
        intro hnone
        have hall := (getCharAt_eq_none_iff (l.take j) r c).mp hnone
        rw [hall wi hmem] at hci
        cases hci
      obtain ⟨ch, hch⟩ := Option.ne_none_iff_exists'.mp hnn
      obtain ⟨f, hfmem, hfcov, hfchar⟩ := getCharAt_some_mem (l.take j) r c ch hch
      have hchwj : ch = wj.word.getD o ' ' := by
        apply canPlaceWord_true_no_conflict (l.take j) wj.word wj.row wj.col wj.direction
          hcan o ho ch
        rw [← hr, ← hc]
        exact hch
      obtain ⟨k, hkj, hgk⟩ := get?_of_mem_take hfmem
      have hagree : Builder.charAtCell wi r c = Builder.charAtCell f r c := by
        rcases le_total i k with h1 | h1
        · exact ih k hkj i h1 wi f r c hgi hgk hci hfcov
        · exact (ih i hlt k h1 f wi r c hgk hgi hfcov hci).symm
      have hwj : Builder.charAtCell wj r c = wj.word.getD o ' ' := by
        rw [hr, hc]
        exact charAtCell_span wj o
      rw [hagree, hfchar, hchwj, hwj]

theorem getCharAt_validChain (l : List Builder.GridWord) (hvc : Builder.validChain l)
    (j : Nat) (w : Builder.GridWord) (hj : l.get? j = some w)
    (o : Nat) (ho : o < w.word.length) :
    Builder.getCharAt l (Builder.spanRow w.row w.direction o)
      (Builder.spanCol w.col w.direction o) = some (w.word.getD o ' ') := by
  have hcov := covers_span w o ho
  have hmem : w ∈ l := List.get?_mem hj
  have hnn : Builder.getCharAt l (Builder.spanRow w.row w.direction o)
      (Builder.spanCol w.col w.direction o) ≠ none := by
    intro hnone
    have hall := (getCharAt_eq_none_iff l _ _).mp hnone
    rw [hall w hmem] at hcov
    cases hcov
  obtain ⟨ch, hch⟩ := Option.ne_none_iff_exists'.mp hnn
  obtain ⟨f, hfmem, hfcov, hfchar⟩ := getCharAt_some_mem l _ _ ch hch
  obtain ⟨k, hgk⟩ := List.get?_of_mem hfmem
  have hagree : Builder.charAtCell f (Builder.spanRow w.row w.direction o)
      (Builder.spanCol w.col w.direction o)
      = Builder.charAtCell w (Builder.spanRow w.row w.direction o)
        (Builder.spanCol w.col w.direction o) := by
    rcases le_total k j with h1 | h1
    · exact validChain_agree l hvc j k h1 f w _ _ hgk hj hfcov hcov
    · exact (validChain_agree l hvc k j h1 w f _ _ hj hgk hcov hfcov).symm
  rw [hch, ← charAtCell_span w o, ← hagree, hfchar]

/-- C5: getCharAt returns the character contributed at (r, c) by some placed
word whose span covers (r, c), and returns none exactly when no placed word
covers (r, c); hence on a placed list built by placements each accepted by
canPlaceWord against the words before it, getCharAt at every cell of a placed
word's span equals the corresponding character of that word. -/
theorem getCharAt_spec (placed : List Builder.GridWord) :
    (∀ r c, Builder.getCharAt placed r c = none ↔
       ∀ pw ∈ placed, Builder.covers pw r c = false)
  ∧ (∀ r c ch, Builder.getCharAt placed r c = some ch →
       ∃ pw ∈ placed, Builder.covers pw r c = true ∧ Builder.charAtCell pw r c = ch)
  ∧ (Builder.validChain placed →
       ∀ w ∈ placed, ∀ o, o < w.word.length →
         Builder.getCharAt placed (Builder.spanRow w.row w.direction o)
           (Builder.spanCol w.col w.direction o) = some (w.word.getD o ' ')) := by
  refine ⟨fun r c => getCharAt_eq_none_iff placed r c,
    fun r c ch => getCharAt_some_mem placed r c ch, ?_⟩
  intro hvc w hw o ho
  obtain ⟨j, hj⟩ := List.get?_of_mem hw
  exact getCharAt_validChain placed hvc j w hj o ho

/-- C5 witness: with CAT placed horizontally at the origin (a valid chain),
getCharAt at offset 2 of its span returns T. -/
theorem getCharAt_spec_witness : Builder.getCharAt [catWord] 0 2 = some 'T' := by
  have h := (getCharAt_spec [catWord]).2.2
    (fun j pw hj => by
      rcases j with _ | j
      · cases hj
        decide
      · simp [List.get?] at hj)
    catWord (by decide) 2 (by decide)
  exact h

theorem mergeCell_idem (b : Bool) (cell : Play.CellData) :
    Play.mergeCell b (Play.mergeCell b cell) = Play.mergeCell b cell := by
  cases cell with
  | mk ia ch nm wi ic =>
    cases b <;> simp [Play.mergeCell] <;> split_ifs <;> simp_all

theorem mergeCell_comp (b : Bool) :
    Play.mergeCell b ∘ Play.mergeCell b = Play.mergeCell b :=
  funext (mergeCell_idem b)

theorem cellAt_merge_offsets (b : Bool) (w : Play.WordData) :
    ∀ (is : List Nat) (g : Play.Grid) (r c : Nat),
      Play.cellAt (is.foldl (fun gg i => Play.modifyCell gg (Play.wordCellRow w i)
          (Play.wordCellCol w i) (Play.mergeCell b)) g) r c
        = if is.any (fun i => decide (Play.wordCellRow w i = r ∧ Play.wordCellCol w i = c))
          then (Play.cellAt g r c).map (Play.mergeCell b)
          else Play.cellAt g r c := by
  intro is
  induction is with
  | nil => intro g r c; simp
  | cons i rest ih =>
    intro g r c
    rw [List.foldl_cons, ih, List.any_cons]
    by_cases hhit : Play.wordCellRow w i = r ∧ Play.wordCellCol w i = c
    · obtain ⟨h1, h2⟩ := hhit
      rw [h1, h2, cellAt_modifyCell_self]
      by_cases hrest : rest.any
          (fun i => decide (Play.wordCellRow w i = r ∧ Play.wordCellCol w i = c)) = true <;>
        simp [hrest, Option.map_map, mergeCell_comp]
    · rw [cellAt_modifyCell_ne _ _ _ _ r c (fun hcc => hhit ⟨hcc.1.symm, hcc.2.symm⟩)]
      simp [hhit]

theorem cellAt_mergeWord (results : List Play.CheckResult) (g : Play.Grid)
    (w : Play.WordData) (r c : Nat) :
    Play.cellAt (Play.mergeWord results g w) r c
      = if Play.coversCell w r c
        then (Play.cellAt g r c).map (Play.mergeCell (Play.isCorrectFor results w))
        else Play.cellAt g r c := by
  unfold Play.mergeWord Play.coversCell
  exact cellAt_merge_offsets (Play.isCorrectFor results w) w (List.range w.length) g r c

theorem cellAt_mergeResults (results : List Play.CheckResult) :
    ∀ (words : List Play.WordData) (g : Play.Grid) (r c : Nat),
      Play.cellAt (Play.mergeResults words results g) r c
        = (Play.cellAt g r c).map (fun cell =>
            words.foldl (fun acc w =>
              if Play.coversCell w r c then Play.mergeCell (Play.isCorrectFor results w) acc
              else acc) cell) := by
  intro words
  induction words with
  | nil =>
    intro g r c
    simp [Play.mergeResults]
  | cons w ws ih =>
    intro g r c
    have hstep : Play.mergeResults (w :: ws) results g
        = Play.mergeResults ws results (Play.mergeWord results g w) := rfl
    rw [hstep, ih, cellAt_mergeWord]
    by_cases hcov : Play.coversCell w r c = true
    · rw [if_pos hcov, Option.map_map]
      cases Play.cellAt g r c <;> simp [Function.comp, List.foldl_cons, hcov]
    · rw [if_neg hcov]
      cases Play.cellAt g r c <;> simp [List.foldl_cons, hcov]

theorem cellFold_eq_bsFold (results : List Play.CheckResult) (r c : Nat) :
    ∀ (words : List Play.WordData) (cell : Play.CellData),
      words.foldl (fun acc w =>
          if Play.coversCell w r c then Play.mergeCell (Play.isCorrectFor results w) acc
          else acc) cell
        = ((words.filter (fun w => Play.coversCell w r c)).map
            (fun w => Play.isCorrectFor results w)).foldl
            (fun acc b => Play.mergeCell b acc) cell := by
  intro words
  induction words with
  | nil => intro cell; rfl
  | cons w ws ih =>
    intro cell
    by_cases hcov : Play.coversCell w r c = true <;>
      simp [List.filter_cons, hcov, List.foldl_cons, ih]

theorem bsFold_full : ∀ (bs : List Bool) (cell : Play.CellData), bs ≠ [] →
    bs.foldl (fun acc b => Play.mergeCell b acc) cell
      = { cell with isCorrect :=
            if bs.all (fun b => b) then
              (if cell.isCorrect = some false then some false else some true)
            else some false } := by
  intro bs
  induction bs with
  | nil => intro cell h; cases h rfl
  | cons b rest ih =>
    intro cell _
    by_cases hr : rest = []
    · subst hr
      cases cell with
      | mk ia ch nm wi ic =>
        cases b <;> simp [Play.mergeCell] <;> split_ifs <;> simp_all
    · rw [List.foldl_cons, ih (Play.mergeCell b cell) hr]
      cases cell with
      | mk ia ch nm wi ic =>
        cases b <;> simp [Play.mergeCell, List.all_cons] <;> split_ifs <;> simp_all

theorem mergeResults_flag_false (words : List Play.WordData)
    (results : List Play.CheckResult) (g : Play.Grid) (r c : Nat)
    (hcell : (Play.cellAt g r c).isSome = true)
    (hex : ∃ w ∈ words, Play.coversCell w r c = true
      ∧ Play.isCorrectFor results w = false) :
    (Play.cellAt (Play.mergeResults words results g) r c).map (fun cl => cl.isCorrect)
      = some (some false) := by
  obtain ⟨cell, hc⟩ := Option.isSome_iff_exists.mp hcell
  rw [cellAt_mergeResults, hc]
  simp only [Option.map_some']
  rw [cellFold_eq_bsFold]
  have hmem : false ∈ (words.filter (fun w => Play.coversCell w r c)).map
      (fun w => Play.isCorrectFor results w) := by
    obtain ⟨w, hw, hcov, hfalse⟩ := hex
    exact List.mem_map.mpr ⟨w, List.mem_filter.mpr ⟨hw, hcov⟩, hfalse⟩
  have hne : (words.filter (fun w => Play.coversCell w r c)).map
      (fun w => Play.isCorrectFor results w) ≠ [] := by
    intro h
    rw [h] at hmem
    cases hmem
  have hall : ((words.filter (fun w => Play.coversCell w r c)).map
      (fun w => Play.isCorrectFor results w)).all (fun b => b) = false := by
    refine Bool.eq_false_iff.mpr (fun htrue => ?_)
    have := List.all_eq_true.mp htrue false hmem
    cases this
  rw [bsFold_full _ cell hne]
  simp [hall]

theorem mergeResults_flag_true (words : List Play.WordData)
    (results : List Play.CheckResult) (g : Play.Grid) (r c : Nat)
    (hcell : (Play.cellAt g r c).isSome = true)
    (hcov : words.any (fun w => Play.coversCell w r c) = true)
    (hall : ∀ w ∈ words, Play.coversCell w r c = true → Play.isCorrectFor results w = true)
    (hpre : (Play.cellAt g r c).map (fun cl => cl.isCorrect) ≠ some (some false)) :
    (Play.cellAt (Play.mergeResults words results g) r c).map (fun cl => cl.isCorrect)
      = some (some true) := by
  obtain ⟨cell, hc⟩ := Option.isSome_iff_exists.mp hcell
  have hpre2 : cell.isCorrect ≠ some false := by
    rw [hc] at hpre
    simpa using hpre
  rw [cellAt_mergeResults, hc]
  simp only [Option.map_some']
  rw [cellFold_eq_bsFold]
  have hne : (words.filter (fun w => Play.coversCell w r c)).map
      (fun w => Play.isCorrectFor results w) ≠ [] := by
    obtain ⟨w, hw, hcw⟩ := List.any_eq_true.mp hcov
    intro hnil
    have hmem : Play.isCorrectFor results w ∈ (words.filter
        (fun w => Play.coversCell w r c)).map (fun w => Play.isCorrectFor results w) :=
      List.mem_map.mpr ⟨w, List.mem_filter.mpr ⟨hw, hcw⟩, rfl⟩
    rw [hnil] at hmem
    cases hmem
  have hballs : ((words.filter (fun w => Play.coversCell w r c)).map
      (fun w => Play.isCorrectFor results w)).all (fun b => b) = true := by
    rw [List.all_eq_true]
    intro b hb
    obtain ⟨w, hwmem, hwb⟩ := List.mem_map.mp hb
    obtain ⟨hw, hcw⟩ := List.mem_filter.mp hwmem
    rw [← hwb]
    exact hall w hw hcw
  rw [bsFold_full _ cell hne]
  simp [hballs, hpre2]

theorem perm_all_id_eq {bs bs' : List Bool} (h : bs.Perm bs') :
    bs.all (fun b => b) = bs'.all (fun b => b) := by
  by_cases hall : ∀ x ∈ bs, (fun b => b) x = true
  · rw [List.all_eq_true.mpr hall,
      List.all_eq_true.mpr (fun x hx => hall x (h.mem_iff.mpr hx))]
  · have h1 : bs.all (fun b => b) = false :=
      Bool.eq_false_iff.mpr (fun htrue => hall (List.all_eq_true.mp htrue))
    have h2 : bs'.all (fun b => b) = false :=
      Bool.eq_false_iff.mpr (fun htrue => hall
        (fun x hx => List.all_eq_true.mp htrue x (h.mem_iff.mp hx)))
    rw [h1, h2]

theorem mergeResults_perm_invariant (words words' : List Play.WordData)
    (results : List Play.CheckResult) (g : Play.Grid) (r c : Nat)
    (hperm : words.Perm words') :
    Play.cellAt (Play.mergeResults words' results g) r c
      = Play.cellAt (Play.mergeResults words results g) r c := by
  rw [cellAt_mergeResults, cellAt_mergeResults]
  cases hc : Play.cellAt g r c with
  | none => rfl
  | some cell =>
    simp only [Option.map_some']
    rw [cellFold_eq_bsFold, cellFold_eq_bsFold]
    have hpermbs : ((words.filter (fun w => Play.coversCell w r c)).map
        (fun w => Play.isCorrectFor results w)).Perm
        ((words'.filter (fun w => Play.coversCell w r c)).map
          (fun w => Play.isCorrectFor results w)) :=
      (hperm.filter _).map _
    by_cases hnil : (words.filter (fun w => Play.coversCell w r c)).map
        (fun w => Play.isCorrectFor results w) = []
    · have hnil' : (words'.filter (fun w => Play.coversCell w r c)).map
          (fun w => Play.isCorrectFor results w) = [] := by
        rw [hnil] at hpermbs
        exact hpermbs.symm.eq_nil
      rw [hnil, hnil']
    · have hnil' : (words'.filter (fun w => Play.coversCell w r c)).map
          (fun w => Play.isCorrectFor results w) ≠ [] := by
        intro h
        rw [h] at hpermbs
        exact hnil hpermbs.eq_nil
      rw [bsFold_full _ cell hnil', bsFold_full _ cell hnil,
        perm_all_id_eq hpermbs]

/-- C3 counterexample: a cell whose only covering word is correct in the
returned results keeps a stale false flag from an earlier check instead of
becoming true, contradicting the claim that the flag is true whenever every
covering word is correct. -/
theorem mergeResults_stale_false_cex :
    (∀ w ∈ [staleWord], Play.coversCell w 0 0 = true
        ∧ Play.isCorrectFor [{ word_id := "w1", is_correct := true }] w = true)
  ∧ (Play.cellAt (Play.mergeResults [staleWord]
        [{ word_id := "w1", is_correct := true }] staleGrid) 0 0).map
        (fun cl => cl.isCorrect) = some (some false) :=
  ⟨by decide, by decide⟩

/-- C3 (amended): after one result-merge pass of handleSubmit, for a cell
covered by at least one word: its flag is forced false whenever some covering
word is not correct in the returned results; if every covering word is correct
it becomes true unless the cell entered the pass already flagged false (a stale
false flag is never cleared); and the per-cell outcome is unchanged under any
permutation of the word processing order, so a shared crossing cell of one
correct and one incorrect word always ends up flagged false. -/
theorem mergeResults_poison_spec (words : List Play.WordData)
    (results : List Play.CheckResult) (g : Play.Grid) (r c : Nat)
    (_hspans : ∀ w ∈ words, ∀ i, i < w.length →
       ((Play.cellAt g (Play.wordCellRow w i) (Play.wordCellCol w i)).isSome = true))
    (hcell : (Play.cellAt g r c).isSome = true)
    (hcov : words.any (fun w => Play.coversCell w r c) = true) :
    ((∃ w ∈ words, Play.coversCell w r c = true ∧ Play.isCorrectFor results w = false) →
       (Play.cellAt (Play.mergeResults words results g) r c).map (fun cl => cl.isCorrect)
         = some (some false))
  ∧ ((∀ w ∈ words, Play.coversCell w r c = true → Play.isCorrectFor results w = true) →
       (Play.cellAt g r c).map (fun cl => cl.isCorrect) ≠ some (some false) →
       (Play.cellAt (Play.mergeResults words results g) r c).map (fun cl => cl.isCorrect)
         = some (some true))
  ∧ (∀ words', words.Perm words' →
       Play.cellAt (Play.mergeResults words' results g) r c
         = Play.cellAt (Play.mergeResults words results g) r c) :=
  ⟨fun hex => mergeResults_flag_false words results g r c hcell hex,
   fun hall hpre => mergeResults_flag_true words results g r c hcell hcov hall hpre,
   fun words' hperm => mergeResults_perm_invariant words words' results g r c hperm⟩

/-- C3 witness: in the HELLO/HAT cross with HAT marked incorrect, the shared
cell (0,0) ends up false and the HELLO-only cell (0,1) ends up true. -/
theorem mergeResults_poison_spec_witness :
    (Play.cellAt (Play.mergeResults [helloWord, hatWord]
        [{ word_id := "h", is_correct := true }, { word_id := "v", is_correct := false }]
        crossGrid) 0 0).map (fun cl => cl.isCorrect) = some (some false)
  ∧ (Play.cellAt (Play.mergeResults [helloWord, hatWord]
        [{ word_id := "h", is_correct := true }, { word_id := "v", is_correct := false }]
        crossGrid) 0 1).map (fun cl => cl.isCorrect) = some (some true) :=
  ⟨(mergeResults_poison_spec [helloWord, hatWord]
      [{ word_id := "h", is_correct := true }, { word_id := "v", is_correct := false }]
      crossGrid 0 0 (by decide) (by decide) (by decide)).1 (by decide),
   (mergeResults_poison_spec [helloWord, hatWord]
      [{ word_id := "h", is_correct := true }, { word_id := "v", is_correct := false }]
      crossGrid 0 1 (by decide) (by decide) (by decide)).2.1 (by decide) (by decide)⟩

/-- C10: in the result merge of handleSubmit, a word whose id has no matching
entry in the returned results is treated exactly as incorrect: every cell of
its span has its correctness flag forced to false. -/
theorem mergeResults_missing_result_spec (words : List Play.WordData)
    (results : List Play.CheckResult) (g : Play.Grid) (w : Play.WordData) (i : Nat)
    (hspans : ∀ v ∈ words, ∀ j, j < v.length →
       ((Play.cellAt g (Play.wordCellRow v j) (Play.wordCellCol v j)).isSome = true))
    (hw : w ∈ words)
    (hmiss : results.find? (fun res => res.word_id == w.id) = none)
    (hi : i < w.length) :
    (Play.cellAt (Play.mergeResults words results g) (Play.wordCellRow w i)
        (Play.wordCellCol w i)).map (fun cl => cl.isCorrect) = some (some false) := by
  have hcov : Play.coversCell w (Play.wordCellRow w i) (Play.wordCellCol w i) = true :=
    List.any_eq_true.mpr ⟨i, List.mem_range.mpr hi, by simp⟩
  have hfalse : Play.isCorrectFor results w = false := by
    unfold Play.isCorrectFor
    rw [hmiss]
  exact mergeResults_flag_false words results g _ _ (hspans w hw i hi)
    ⟨w, hw, hcov, hfalse⟩

/-- C10 witness: submitting the HELLO/HAT cross with a response that omits HAT
forces HAT's span cell (1,0) to false. -/
theorem mergeResults_missing_result_spec_witness :
    (Play.cellAt (Play.mergeResults [helloWord, hatWord]
        [{ word_id := "h", is_correct := true }] crossGrid) 1 0).map
        (fun cl => cl.isCorrect) = some (some false) :=
  mergeResults_missing_result_spec [helloWord, hatWord]
    [{ word_id := "h", is_correct := true }] crossGrid hatWord 1
    (by decide) (by decide) (by decide) (by decide)

theorem foldl_invariant {α β : Type _} (P : β → Prop) (f : β → α → β)
    (hf : ∀ b a, P b → P (f b a)) : ∀ (l : List α) (b : β), P b → P (l.foldl f b) := by
  intro l
  induction l with
  | nil => intro b hb; exact hb
  | cons a t ih => intro b hb; exact ih (f b a) (hf b a hb)

theorem placeWordStep_eq (rows cols : Nat) (w : Play.WordData) (g : Play.Grid) (i : Nat) :
    Play.placeWordStep rows cols w g i
      = if Play.wordCellRow w i < rows ∧ Play.wordCellCol w i < cols
        then Play.modifyCell g (Play.wordCellRow w i) (Play.wordCellCol w i)
          (fun cell =>
            { cell with
              isActive := true,
              wordIds := cell.wordIds ++ [w.id],
              number := if i = 0 then some w.number else cell.number })
        else g := rfl

theorem modifyCell_dims (g : Play.Grid) (r c : Nat) (f : Play.CellData → Play.CellData)
    (rows cols : Nat)
    (h : g.length = rows ∧ ∀ i row, g.get? i = some row → row.length = cols) :
    (Play.modifyCell g r c f).length = rows
      ∧ ∀ i row, (Play.modifyCell g r c f).get? i = some row → row.length = cols := by
  cases hg : g.get? r with
  | none => rw [modifyCell_none g r c f hg]; exact h
  | some row =>
    cases hrow : row.get? c with
    | none => rw [modifyCell_rownone g r c f row hg hrow]; exact h
    | some cell =>
      rw [modifyCell_set g r c f row cell hg hrow]
      refine ⟨by rw [List.length_set]; exact h.1, ?_⟩
      intro i row' hrow'
      by_cases hir : i = r
      · subst hir
        obtain ⟨hlow, -⟩ := List.get?_eq_some.mp hg
        rw [List.get?_set_eq_of_lt _ hlow] at hrow'
        cases hrow'
        rw [List.length_set]
        exact h.2 i row hg
      · rw [List.get?_set_ne _ _ (fun hri => hir hri.symm)] at hrow'
        exact h.2 i row' hrow'

theorem initializeGrid_dims (data : Play.GameData) :
    (Play.initializeGrid data).length = data.rows
      ∧ ∀ i row, (Play.initializeGrid data).get? i = some row → row.length = data.cols := by
  unfold Play.initializeGrid
  refine foldl_invariant
    (fun g : Play.Grid =>
      g.length = data.rows ∧ ∀ i row, g.get? i = some row → row.length = data.cols)
    _ ?_ data.words _ ⟨by simp, ?_⟩
  · intro g w hg
    exact foldl_invariant
      (fun g : Play.Grid =>
        g.length = data.rows ∧ ∀ i row, g.get? i = some row → row.length = data.cols)
      (Play.placeWordStep data.rows data.cols w)
      (fun gg i hgg => by
        rw [placeWordStep_eq]
        by_cases hin : Play.wordCellRow w i < data.rows ∧ Play.wordCellCol w i < data.cols
        · rw [if_pos hin]
          exact modifyCell_dims gg _ _ _ data.rows data.cols hgg
        · rw [if_neg hin]
          exact hgg)
      (List.range w.length) g hg
  · intro i row hrow
    obtain ⟨hi, hget⟩ := List.get?_eq_some.mp hrow
    rw [List.get_replicate] at hget
    rw [← hget]
    simp

theorem cellAt_replicate_empty (rows cols r c : Nat) (hr : r < rows) (hc : c < cols) :
    Play.cellAt (List.replicate rows (List.replicate cols Play.emptyCell)) r c
      = some Play.emptyCell := by
  have h1 : (List.replicate rows (List.replicate cols Play.emptyCell)).get? r
      = some (List.replicate cols Play.emptyCell) := by
    rw [List.get?_eq_get (by simpa using hr), List.get_replicate]
  have h2 : (List.replicate cols Play.emptyCell).get? c = some Play.emptyCell := by
    rw [List.get?_eq_get (by simpa using hc), List.get_replicate]
  unfold Play.cellAt
  rw [h1]
  simpa using h2

theorem placeWordStep_cellAt_active (rows cols : Nat) (w : Play.WordData) (r c : Nat)
    (hr : r < rows) (hc : c < cols) (g : Play.Grid) (i : Nat) (cell : Play.CellData)
    (hcell : Play.cellAt g r c = some cell) :
    ∃ cell', Play.cellAt (Play.placeWordStep rows cols w g i) r c = some cell'
      ∧ cell'.isActive = (cell.isActive
          || decide (Play.wordCellRow w i = r ∧ Play.wordCellCol w i = c)) := by
  rw [placeWordStep_eq]
  by_cases hhit : Play.wordCellRow w i = r ∧ Play.wordCellCol w i = c
  · obtain ⟨h1, h2⟩ := hhit
    rw [if_pos (by rw [h1, h2]; exact ⟨hr, hc⟩), h1, h2, cellAt_modifyCell_self, hcell]
    exact ⟨_, rfl, by simp [h1, h2]⟩
  · by_cases hin : Play.wordCellRow w i < rows ∧ Play.wordCellCol w i < cols
    · rw [if_pos hin,
        cellAt_modifyCell_ne _ _ _ _ r c (fun hcc => hhit ⟨hcc.1.symm, hcc.2.symm⟩), hcell]
      exact ⟨cell, rfl, by simp [hhit]⟩
    · rw [if_neg hin, hcell]
      exact ⟨cell, rfl, by simp [hhit]⟩

theorem placeWord_fold_active (rows cols : Nat) (w : Play.WordData) (r c : Nat)
    (hr : r < rows) (hc : c < cols) :
    ∀ (is : List Nat) (g : Play.Grid) (cell : Play.CellData),
      Play.cellAt g r c = some cell →
      ∃ cell', Play.cellAt (is.foldl (Play.placeWordStep rows cols w) g) r c = some cell'
        ∧ cell'.isActive = (cell.isActive
            || is.any (fun i => decide (Play.wordCellRow w i = r ∧ Play.wordCellCol w i = c))) := by
  intro is
  induction is with
  | nil => intro g cell hcell; exact ⟨cell, hcell, by simp⟩
  | cons i rest ih =>
    intro g cell hcell
    rw [List.foldl_cons]
    obtain ⟨cell1, hcell1, hact1⟩ :=
      placeWordStep_cellAt_active rows cols w r c hr hc g i cell hcell
    obtain ⟨cell', hcell', hact'⟩ := ih (Play.placeWordStep rows cols w g i) cell1 hcell1
    refine ⟨cell', hcell', ?_⟩
    rw [hact', hact1, List.any_cons, Bool.or_assoc]

theorem initializeGrid_active_fold (rows cols : Nat) (r c : Nat)
    (hr : r < rows) (hc : c < cols) :
    ∀ (words : List Play.WordData) (g : Play.Grid) (cell : Play.CellData),
      Play.cellAt g r c = some cell →
      ∃ cell', Play.cellAt (words.foldl (fun gg w =>
          (List.range w.length).foldl (Play.placeWordStep rows cols w) gg) g) r c = some cell'
        ∧ cell'.isActive = (cell.isActive || words.any (fun w => Play.coversCell w r c)) := by
  intro words
  induction words with
  | nil => intro g cell h; exact ⟨cell, h, by simp⟩
  | cons w ws ih =>
    intro g cell hcell
    rw [List.foldl_cons]
    obtain ⟨cell1, hcell1, hact1⟩ :=
      placeWord_fold_active rows cols w r c hr hc (List.range w.length) g cell hcell
    obtain ⟨cell', hcell', hact'⟩ := ih _ cell1 hcell1
    refine ⟨cell', hcell', ?_⟩
    rw [hact', hact1, List.any_cons, Bool.or_assoc]
    rfl

/-- C9: initializeGrid builds a rows × cols grid (all writes stay inside it) and
marks active exactly the cells with row < rows and col < cols covered by some
offset of some word's span: offsets that fall at or beyond the grid bounds are
silently skipped, truncating the word rather than rejecting it. -/
theorem initializeGrid_spec (data : Play.GameData) (r c : Nat)
    (hr : r < data.rows) (hc : c < data.cols) :
    (Play.initializeGrid data).length = data.rows
  ∧ (∀ i row, (Play.initializeGrid data).get? i = some row → row.length = data.cols)
  ∧ (Play.cellAt (Play.initializeGrid data) r c).map (fun cell => cell.isActive)
      = some (data.words.any (fun w => Play.coversCell w r c)) := by
  refine ⟨(initializeGrid_dims data).1, (initializeGrid_dims data).2, ?_⟩
  unfold Play.initializeGrid
  obtain ⟨cell', hcell', hact'⟩ := initializeGrid_active_fold data.rows data.cols r c hr hc
    data.words _ Play.emptyCell (cellAt_replicate_empty data.rows data.cols r c hr hc)
  rw [hcell']
  rw [Option.map_some']
  rw [hact']
  simp [Play.emptyCell]

/-- C9 witness: a 5-long horizontal word at the origin of a 2 × 2 grid is
truncated to the grid: the in-bounds span cell (0,1) is active. -/
theorem initializeGrid_spec_witness :
    (Play.cellAt (Play.initializeGrid truncGame) 0 1).map (fun cell => cell.isActive)
      = some true := by
  have h := (initializeGrid_spec truncGame 0 1 (by decide) (by decide)).2.2
  rw [h]
  decide
